import Mathlib

/-!
Verification of the Lighthouse treemap viewer
(`lighthouse-treemap/app/src/util.js`).

The JavaScript source is shallowly embedded: JS strings become Lean
`String`s (sequences of code points; UTF-16 surrogate-pair corner cases
are out of scope), JS numbers that hold byte counts and hash sums become
`Nat` (all arithmetic in the modeled claims is exact in IEEE doubles),
fractional hue arithmetic becomes `ℚ`, fallible operations return
`Except`/`Option`, and the stateful hue-assignment closure becomes an
explicit state type with a step function.
-/

namespace LHTreemap

/-- `const KB = 1024` -/
def KB : Nat := 1024

/-- `const MB = KB * KB` -/
def MB : Nat := KB * KB

/-- `Util.elide`: `if (string.length <= length) return string;
return string.slice(0, length) + '…'`. -/
def elide (s : String) (n : Nat) : String :=
  if s.length ≤ n then s else String.mk (s.data.take n ++ ['…'])

/-- Round-half-up of the exact rational `num / den` (`den ≠ 0`).  This is the
value of JS `(num / den).toFixed(0)` when `num / den` is an exactly
representable double: ECMA `toFixed` picks the integer closest to the exact
value, ties toward the larger integer. -/
def roundHalfUp (num den : Nat) : Nat := (2 * num + den) / (2 * den)

/-- Two-digit zero-padded rendering of `k < 100`, for the fraction digits
produced by `toFixed(2)`. -/
def pad2 (k : Nat) : String := (if k < 10 then "0" else "") ++ toString k

/-- `Util.formatBytes`.  `(bytes / MB).toFixed(2)` is modeled by rounding
`100 * bytes / MB` half-up to an integer number of hundredths (exact for a
`Nat` byte count divided by a power of two) and printing it with two
decimals; `(bytes / KB).toFixed(0)` likewise rounds half-up. -/
def formatBytes (bytes : Nat) : String :=
  if MB ≤ bytes then
    let cents := roundHalfUp (100 * bytes) MB
    toString (cents / 100) ++ "." ++ pad2 (cents % 100) ++ " MB"
  else if KB ≤ bytes then
    toString (roundHalfUp bytes KB) ++ " KB"
  else
    toString bytes ++ " B"

/-- `Util.format(value, unit)`. -/
def format (value : Nat) (unit : String) : String :=
  if unit = "bytes" then formatBytes value
  else if unit = "time" then toString value ++ " ms"
  else toString value ++ " " ++ unit

/-- JS `Array.prototype.indexOf`: index of the first occurrence, `-1` when
absent. -/
def jsIndexOf (l : List String) (x : String) : Int :=
  match l.findIdx? (fun y => y == x) with
  | some i => (i : Int)
  | none => -1

/-- Model of `String.prototype.localeCompare`: locale-aware three-way
comparison, modeled as code-point lexicographic comparison (they agree on
the plain ASCII identifiers this program compares). -/
def localeCompare (a b : String) : Int :=
  match compare a b with
  | Ordering.lt => -1
  | Ordering.eq => 0
  | Ordering.gt => 1

/-- `Util.sortByPrecedence`. -/
def sortByPrecedence (precedence : List String) (a b : String) : Int :=
  let aIndex := jsIndexOf precedence a
  let bIndex := jsIndexOf precedence b
  if aIndex = -1 ∧ bIndex = -1 then localeCompare a b
  else if aIndex = -1 ∧ bIndex ≥ 0 then 1
  else if bIndex = -1 ∧ aIndex ≥ 0 then -1
  else aIndex - bIndex

/-- The closure state of `Util.stableHasher`: the private (shrinking) working
copy of the item pool and the memo object `assignedItems` (an association
list keyed by the requested hash; keys are only ever added, never
overwritten). -/
structure HState (α : Type) where
  items : List α
  assigned : List (Nat × α)

/-- Property lookup in the `assignedItems` object. -/
def lookupAssigned {α : Type} : List (Nat × α) → Nat → Option α
  | [], _ => none
  | (k, v) :: rest, h => if k = h then some v else lookupAssigned rest h

/-- `Util.stableHasher(items)`: clones the pool and starts with an empty
memo. -/
def stableHasher {α : Type} (items : List α) : HState α :=
  { items := items, assigned := [] }

/-- One call of the function returned by `Util.stableHasher`:
`if (hash in assignedItems) return assignedItems[hash];
if (items.length === 0) return null;
const [assignedColor] = items.splice(hash % items.length, 1); ...`. -/
def hashCall {α : Type} (s : HState α) (hash : Nat) : Option α × HState α :=
  match lookupAssigned s.assigned hash with
  | some v => (some v, s)
  | none =>
    match s.items with
    | [] => (none, s)
    | x :: xs =>
      let l := x :: xs
      let i := hash % l.length
      let item := l.getD i x
      (some item, { items := l.eraseIdx i, assigned := (hash, item) :: s.assigned })

/-- A sequence of calls to one hasher instance. -/
def runCalls {α : Type} (s : HState α) : List Nat → HState α
  | [] => s
  | h :: hs => runCalls (hashCall s h).2 hs

/-- `Util.rgb2hue(r, g, b)`: the source works on JS doubles; every division
is modeled exactly over `ℚ`.  The `switch (max)` tests `r`, then `g`, then
`b`. -/
def rgb2hue (r0 g0 b0 : ℚ) : ℚ :=
  let r := r0 / 255
  let g := g0 / 255
  let b := b0 / 255
  let maxc := max r (max g b)
  let minc := min r (min g b)
  let c := maxc - minc
  let hue :=
    if c = 0 then 0
    else if maxc = r then
      let segment := (g - b) / c
      let shift := if segment < 0 then (360 : ℚ) / 60 else 0 / 60
      segment + shift
    else if maxc = g then
      let segment := (b - r) / c
      segment + 120 / 60
    else
      let segment := (r - g) / c
      segment + 240 / 60
  hue * 60

/-- `Util.COLOR_HUES`: the 17 reference colors converted to hues.  The hex
literals of the source are decoded here to their `(r, g, b)` byte triples
(`'#F44336'` is `(244, 67, 54)`, and so on); the source's regex split of
the hex string is string plumbing with the same result. -/
def COLOR_HUES : List ℚ :=
  [rgb2hue 244 67 54, rgb2hue 233 30 99, rgb2hue 156 39 176,
   rgb2hue 103 58 183, rgb2hue 63 81 181, rgb2hue 3 169 244,
   rgb2hue 0 188 212, rgb2hue 0 150 136, rgb2hue 76 175 80,
   rgb2hue 139 195 74, rgb2hue 205 220 57, rgb2hue 255 193 7,
   rgb2hue 255 152 0, rgb2hue 255 87 34, rgb2hue 121 85 72,
   rgb2hue 158 158 158, rgb2hue 96 125 139]

/-- The scalar fields of a treemap node (`Treemap.Node2`).  `executionTime`
is optional in the source's data; `dom` models whether the external layout
library has attached a DOM reference to the node. -/
structure NodeData where
  id : String
  originalId : String
  bytes : Nat
  wastedBytes : Nat
  executionTime : Option Nat
  duplicate : Bool
  idHash : Nat
  dom : Bool
deriving Repr, DecidableEq

/-- Replace the (mutable, display) `id` field, as `setTitle` does. -/
def NodeData.withId (d : NodeData) (newId : String) : NodeData :=
  ⟨newId, d.originalId, d.bytes, d.wastedBytes, d.executionTime, d.duplicate,
    d.idHash, d.dom⟩

/-- A treemap node.  In JS a node may lack the `children` property
entirely; `hasChildren` models the truthiness of `node.children` (an empty
array is still truthy), and every place the source tests `if
(node.children)` is gated on this flag. -/
inductive JNode where
  | node (data : NodeData) (hasChildren : Bool) (children : List JNode)

def JNode.data : JNode → NodeData
  | .node d _ _ => d

def JNode.hasChildren : JNode → Bool
  | .node _ hc _ => hc

def JNode.children : JNode → List JNode
  | .node _ _ cs => cs

/-- The partition metric: the three field names `mode.partitionBy` takes in
the source (`'bytes' | 'wastedBytes' | 'executionTime'`). -/
inductive Metric where
  | bytes
  | wastedBytes
  | executionTime
deriving DecidableEq, Repr

/-- The JS string value of a partition metric. -/
def metricName : Metric → String
  | .bytes => "bytes"
  | .wastedBytes => "wastedBytes"
  | .executionTime => "executionTime"

/-- `node[partitionBy]`.  A missing `executionTime` is modeled as `0` (no
modeled claim reads `executionTime` of a node that lacks it). -/
def metricValueData (d : NodeData) : Metric → Nat
  | .bytes => d.bytes
  | .wastedBytes => d.wastedBytes
  | .executionTime => d.executionTime.getD 0

def metricValue (n : JNode) (m : Metric) : Nat := metricValueData n.data m

mutual
/-- `dfs(node, fn, fullId = '')` as the list of `(node, fullId)` pairs in
visit order: `fullId = fullId ? fullId + '/' + node.id : node.id` (the
empty string is the only falsy string), visit, then recurse into the
children in array order when `node.children` is truthy. -/
def dfsList : JNode → String → List (JNode × String)
  | .node d hc cs, parent =>
    let fullId := if parent = "" then d.id else parent ++ "/" ++ d.id
    (.node d hc cs, fullId) :: (if hc then dfsListL cs fullId else [])
def dfsListL : List JNode → String → List (JNode × String)
  | [], _ => []
  | c :: cs, p => dfsList c p ++ dfsListL cs p
end

mutual
/-- The nodes of a tree in pre-order (a node before its descendants,
children in array order). -/
def preorder : JNode → List JNode
  | .node d hc cs => .node d hc cs :: (if hc then preorderL cs else [])
def preorderL : List JNode → List JNode
  | [] => []
  | c :: cs => preorder c ++ preorderL cs
end

/-- `"/"`-joined path segments. -/
def joinPath : List String → String
  | [] => ""
  | [x] => x
  | x :: xs => x ++ "/" ++ joinPath xs

mutual
/-- Modelled from the spec's words for the refinement claim about `dfs`:
the full path passed for a node is "its ancestors' ids joined with `/`
followed by the node's own id" (`anc` lists the ids of the ancestors from
the root down). -/
def dfsSpecPaths : JNode → List String → List (JNode × String)
  | .node d hc cs, anc =>
    (.node d hc cs, joinPath (anc ++ [d.id])) ::
      (if hc then dfsSpecPathsL cs (anc ++ [d.id]) else [])
def dfsSpecPathsL : List JNode → List String → List (JNode × String)
  | [], _ => []
  | c :: cs, anc => dfsSpecPaths c anc ++ dfsSpecPathsL cs anc
end

/-- `[...rootNode.id].reduce((acc, char) => acc + char.charCodeAt(0), 0)`:
the sum of the id's character codes (code points; ids are BMP strings, so
surrogate pairs are out of scope). -/
def strHash (s : String) : Nat := s.data.foldl (fun acc c => acc + c.toNat) 0

mutual
/-- The `TreemapViewer` constructor's per-root-node stamping pass:
`node.originalId = node.id` and `node.idHash = idHash` on every node
reachable by `dfs`. -/
def stampTree (h : Nat) : JNode → JNode
  | .node d hc cs =>
    .node ⟨d.id, d.id, d.bytes, d.wastedBytes, d.executionTime, d.duplicate,
        h, d.dom⟩ hc
      (if hc then stampTreeL h cs else cs)
def stampTreeL (h : Nat) : List JNode → List JNode
  | [] => []
  | c :: cs => stampTree h c :: stampTreeL h cs
end

/-- `Treemap.RootNode`: a stable id paired with a root node. -/
structure RootNode where
  id : String
  node : JNode

/-- `TreemapData`: group name to its root nodes, in object insertion
order. -/
abbrev TreemapData := List (String × List RootNode)

def stampRootNode (rn : RootNode) : RootNode :=
  ⟨rn.id, stampTree (strHash rn.id) rn.node⟩

/-- The data-stamping loop of the `TreemapViewer` constructor. -/
def initData (data : TreemapData) : TreemapData :=
  data.map (fun g => (g.1, g.2.map stampRootNode))

/-- `Treemap.DataSelector` (the `viewId` field only drives which view-mode
control is highlighted and is not modeled). -/
structure DataSelector where
  type : String
  value : String

/-- `Treemap.Mode`.  `partitionBy` may be unset (JS `undefined`), in which
case `show` defaults it to `'bytes'`; `highlightNodeIds` is absent
(`undefined`) or a list (an empty list is still truthy where the source
tests `if (this.mode.highlightNodeIds)`). -/
structure Mode where
  selector : DataSelector
  partitionBy : Option Metric
  highlightNodeIds : Option (List String)

/-- `TreemapViewer.findRootNode(id)`: first root node with that exact id,
scanning groups in insertion order. -/
def findRootNode (data : TreemapData) (id : String) : Option RootNode :=
  ((data.map (fun g => g.2)).flatten).find? (fun rn => rn.id == id)

/-- `this.treemapData[group]` as an optional lookup. -/
def lookupGroup (data : TreemapData) (g : String) : Option (List RootNode) :=
  (data.find? (fun kv => kv.1 == g)).map (fun kv => kv.2)

/-- The selector-resolution step of `TreemapViewer.show(mode)`, producing
the new `currentRootNode` or the thrown error.  A failure means the method
throws before the display tree, title, and DOM are rebuilt.  For
`'group'`, a missing group key makes `rootNodes` undefined and the
subsequent `rootNodes.map` throws a `TypeError` (modeled as the error
string `"TypeError: rootNodes is undefined"`), before either specified
error can occur.  The synthetic wrapper and aggregate root objects of the
source carry no `id`, `duplicate` or `dom` fields and the aggregate no
`idHash`; the model fills `""`, `false`, `false` and `0` — none of these
is read before `setTitle` overwrites `id`, and the modeled claims never
color a group view. -/
def showSelect (data : TreemapData) (documentUrl : String) (mode : Mode) :
    Except String JNode :=
  if mode.selector.type = "group" then
    match lookupGroup data mode.selector.value with
    | none => Except.error ("TypeError: rootNodes is undefined")
    | some rootNodes =>
      let children := rootNodes.map (fun rn =>
        if rn.node.hasChildren then
          JNode.node ⟨"", rn.id, rn.node.data.bytes, rn.node.data.wastedBytes,
              rn.node.data.executionTime, false, rn.node.data.idHash, false⟩
            true [rn.node]
        else rn.node)
      Except.ok (JNode.node ⟨"", documentUrl,
          children.foldl (fun acc c => c.data.bytes + acc) 0,
          children.foldl (fun acc c => c.data.wastedBytes + acc) 0,
          some (children.foldl (fun acc c => c.data.executionTime.getD 0 + acc) 0),
          false, 0, false⟩
        true children)
  else if mode.selector.type = "rootNodeId" then
    match findRootNode data mode.selector.value with
    | none => Except.error ("unknown root node")
    | some rn => Except.ok rn.node
  else Except.error ("invalid mode selector")

/-- The percent part of a title: `Math.round(value / total * 100)` (exact
over the rationals; `Math.round` is floor of `x + 1/2` for `x ≥ 0`).  A
zero total makes the JS quotient `NaN` (for `0/0`) or `Infinity`, which
the template literal renders as those strings. -/
def roundPctStr (value total : Nat) : String :=
  if total = 0 then (if value = 0 then "NaN" else "Infinity")
  else toString (roundHalfUp (100 * value) total)

/-- The `unit` chosen in `setTitle`'s metric section:
`partitionBy === 'executionTime' ? 'time' : 'bytes'`. -/
def sectionUnitFor (pb : Metric) : String :=
  if pb = Metric.executionTime then "time" else "bytes"

/-- The label `setTitle` writes into `node.id`: the two sections
`elide(originalId, 60)` and `format(value, unit) (pct%)` joined with
`' • '`; on the current root node the metric section is prefixed with
`partitionBy + ': '`. -/
def labelFor (pb : Metric) (total : Nat) (isRoot : Bool) (d : NodeData) :
    String :=
  let metricStr := format (metricValueData d pb) (sectionUnitFor pb) ++
    " (" ++ roundPctStr (metricValueData d pb) total ++ "%)"
  elide d.originalId 60 ++ " • " ++
    (if isRoot then metricName pb ++ ": " ++ metricStr else metricStr)

mutual
/-- `TreemapViewer.setTitle`'s dfs, as a tree transform.  The source
detects the root by `node === this.currentRootNode`; on the
freshly-deep-cloned display tree only the root position is reference-equal
to it, which the `isRoot` flag models. -/
def setTitleGo (pb : Metric) (total : Nat) (isRoot : Bool) : JNode → JNode
  | .node d hc cs =>
    .node (d.withId (labelFor pb total isRoot d)) hc
      (if hc then setTitleGoL pb total cs else cs)
def setTitleGoL (pb : Metric) (total : Nat) : List JNode → List JNode
  | [] => []
  | c :: cs => setTitleGo pb total false c :: setTitleGoL pb total cs
end

/-- The label-relevant pipeline of `show(mode)`: resolve the selector,
default `partitionBy` to `'bytes'`, take `total =
currentRootNode[partitionBy]`, and synthesize every title.  The deep clone
is the identity on the value level, and `webtreemap.sort` (an external
library call) only permutes children by `size` and touches no field a
label reads, so neither is modeled. -/
def showLabelsTree (data : TreemapData) (documentUrl : String) (mode : Mode) :
    Except String JNode :=
  (showSelect data documentUrl mode).map (fun root =>
    setTitleGo (mode.partitionBy.getD Metric.bytes)
      (metricValue root (mode.partitionBy.getD Metric.bytes)) true root)

/-- One candidate view mode derived by `createViewModes` (name as
displayed, and the `modeOptions` it would apply). -/
structure ViewModeDef where
  viewId : String
  name : String
  partitionBy : Metric
  highlightNodeIds : List String
deriving DecidableEq, Repr

/-- The per-node accumulation of the "Unused JS" block of
`createViewModes`: skip non-leaves, skip leaves with
`wastedBytes < 50 * 1024`, else add `wastedBytes` and push the id. -/
def unusedStep (acc : Nat × List String) (n : JNode) : Nat × List String :=
  if n.hasChildren then acc
  else if n.data.wastedBytes < 50 * 1024 then acc
  else (acc.1 + n.data.wastedBytes, acc.2 ++ [n.data.id])

/-- The "Unused JS" scan: a `dfs` over every root node's tree. -/
def unusedScan (rootNodes : List RootNode) : Nat × List String :=
  rootNodes.foldl
    (fun acc rn => ((dfsList rn.node ("")).map Prod.fst).foldl unusedStep acc)
    (0, [])

/-- The "Unused JS" view mode: offered (`if (bytes)`) only when the
accumulated byte count is non-zero. -/
def unusedViewMode (rootNodes : List RootNode) : Option ViewModeDef :=
  let acc := unusedScan rootNodes
  if acc.1 ≠ 0 then
    some ⟨"unused-js", "Unused JS (" ++ formatBytes acc.1 ++ ")",
      Metric.wastedBytes, acc.2⟩
  else none

/-- A leaf (no `children` property) wasting at least 50 KiB. -/
def unusedPred (n : JNode) : Bool :=
  !n.hasChildren && decide (50 * 1024 ≤ n.data.wastedBytes)

/-- Declarative side for the C4 statement: the qualifying leaves, in the
same traversal order. -/
def unusedLeaves (rootNodes : List RootNode) : List JNode :=
  (rootNodes.map (fun rn => (preorder rn.node).filter unusedPred)).flatten

def unusedTotal (rootNodes : List RootNode) : Nat :=
  ((unusedLeaves rootNodes).map (fun n => n.data.wastedBytes)).sum

def unusedIds (rootNodes : List RootNode) : List String :=
  (unusedLeaves rootNodes).map (fun n => n.data.id)

/-- The effect of `updateColors` on one node's DOM styles. -/
inductive ColorAction where
  | untouched
  | highlightYellow
  | paint (hue : ℚ) (sat lum : Nat) (textColor : String)

def ColorAction.isPaint : ColorAction → Bool
  | .paint .. => true
  | _ => false

/-- One node's step of `TreemapViewer.updateColors`: skip nodes without a
DOM reference; when a highlight set is active, highlight exactly its
members and touch nothing else (the hasher is not consulted); otherwise
ask the shared hasher for `getHue(node.idHash)` and, unless it returns
null, paint background `hsl(hue, 60%, 90%)` and text black (lightness 90 >
50). -/
def colorStep (mode : Mode) (s : HState ℚ) (n : JNode) :
    ColorAction × HState ℚ :=
  if n.data.dom = false then (ColorAction.untouched, s)
  else
    match mode.highlightNodeIds with
    | some ids =>
      (if n.data.originalId ∈ ids then ColorAction.highlightYellow
       else ColorAction.untouched, s)
    | none =>
      let r := hashCall s n.data.idHash
      match r.1 with
      | none => (ColorAction.untouched, r.2)
      | some hue =>
        (ColorAction.paint hue 60 90
          (if 50 < (90 : Nat) then ("black") else ("white")), r.2)

/-- `updateColors` over a list of nodes in dfs order, threading the shared
hasher state. -/
def updateColorsGo (mode : Mode) :
    List JNode → HState ℚ → List (JNode × ColorAction) × HState ℚ
  | [], s => ([], s)
  | n :: ns, s =>
    let r := colorStep mode s n
    let rest := updateColorsGo mode ns r.2
    ((n, r.1) :: rest.1, rest.2)

/-- One `updateColors()` call: a dfs over the current root node. -/
def updateColors (mode : Mode) (root : JNode) (s : HState ℚ) :
    List (JNode × ColorAction) × HState ℚ :=
  updateColorsGo mode (preorder root) s

/-- A viewer session: any sequence of renders (each showing some tree
under some mode), all sharing the one hasher created at construction. -/
def sessionRun :
    List (Mode × JNode) → HState ℚ → List (JNode × ColorAction) × HState ℚ
  | [], s => ([], s)
  | (m, t) :: steps, s =>
    let r := updateColors m t s
    let rest := sessionRun steps r.2
    (r.1 ++ rest.1, rest.2)

def paintedPairs (l : List (JNode × ColorAction)) :
    List (JNode × ColorAction) :=
  l.filter (fun p => p.2.isPaint)

def assignedKeys {α : Type} (s : HState α) : List Nat :=
  s.assigned.map Prod.fst

/-- Naive substring test on character lists (used to state that a label
does not contain a claimed percentage). -/
def containsSub (l pat : List Char) : Bool :=
  (List.range (l.length + 1)).any (fun i => ((l.drop i).take pat.length) == pat)

/-! ### Concrete fixtures for the end-to-end claims -/

/-- The three-level chain of the dfs example. -/
def c8chain : JNode :=
  JNode.node ⟨"root", "root", 0, 0, none, false, 0, false⟩ true
    [JNode.node ⟨"child", "child", 0, 0, none, false, 0, false⟩ true
      [JNode.node ⟨"grandchild", "grandchild", 0, 0, none, false, 0, false⟩
        false []]]

/-- A tree whose root id is the empty string. -/
def c8empty : JNode :=
  JNode.node ⟨"", "", 0, 0, none, false, 0, false⟩ true
    [JNode.node ⟨"c", "c", 0, 0, none, false, 0, false⟩ false []]

/-- The end-to-end fixture of C2: one group `"scripts"` with one bundle of
two leaves of 100 and 300 bytes under a 400-byte root. -/
def c2data : TreemapData :=
  [(("scripts"),
    [⟨"rootid",
      JNode.node ⟨"rootid", "", 400, 0, none, false, 0, false⟩ true
        [JNode.node ⟨"a", "", 100, 0, none, false, 0, false⟩ false [],
         JNode.node ⟨"b", "", 300, 0, none, false, 0, false⟩ false []]⟩])]

def c2mode : Mode := ⟨⟨"rootNodeId", "rootid"⟩, some Metric.bytes, none⟩

/-- A freshly stamped single-node bundle with a DOM reference, as the
constructor produces for a root node with id `s`. -/
def c10node (s : String) : JNode :=
  stampTree (strHash s) (JNode.node ⟨s, s, 0, 0, none, false, 0, true⟩ false [])

def c10mode : Mode := ⟨⟨"rootNodeId", ""⟩, some Metric.bytes, none⟩

/-- Eighteen bundles whose ids produce only seventeen distinct idHash
values (`"ab"` and `"ba"` have equal character-code sums). -/
def c10steps : List (Mode × JNode) :=
  [(c10mode, c10node ("ab")), (c10mode, c10node ("ba")),
   (c10mode, c10node ("a")), (c10mode, c10node ("b")),
   (c10mode, c10node ("c")), (c10mode, c10node ("d")),
   (c10mode, c10node ("e")), (c10mode, c10node ("f")),
   (c10mode, c10node ("g")), (c10mode, c10node ("h")),
   (c10mode, c10node ("i")), (c10mode, c10node ("j")),
   (c10mode, c10node ("k")), (c10mode, c10node ("l")),
   (c10mode, c10node ("m")), (c10mode, c10node ("n")),
   (c10mode, c10node ("o")), (c10mode, c10node ("p"))]

end LHTreemap

namespace LHTreemap

/-! ## Theorems for the string / formatting utilities -/

/-- C5.  `elide` returns strings of length `≤ n` unchanged; longer strings
are cut to their first `n` characters followed by the ellipsis character, so
the result has length `n + 1`, ends in `'…'`, and starts with the first `n`
characters of the input. -/
theorem elide_contract (s : String) (n : Nat) :
    (s.length ≤ n → elide s n = s) ∧
    (n < s.length →
      (elide s n).length = n + 1 ∧
      (elide s n).data.getLast? = some '…' ∧
      (elide s n).data.take n = s.data.take n) := by
  constructor
  · intro h
    simp [elide, h]
  · intro h
    have hnle : ¬ s.length ≤ n := by omega
    have hdata : (elide s n).data = s.data.take n ++ ['…'] := by
      simp [elide, hnle]
    have hlen : s.data.length = s.length := rfl
    refine ⟨?_, ?_, ?_⟩
    · show (elide s n).data.length = n + 1
      rw [hdata]
      simp only [List.length_append, List.length_take, List.length_cons,
        List.length_nil]
      omega
    · rw [hdata]
      exact List.getLast?_concat _
    · rw [hdata]
      rw [List.take_append_of_le_length]
      · exact List.take_take n n s.data ▸ by simp
      · simp only [List.length_take]
        omega

/-- C5 witness at a concrete input. -/
theorem elide_contract_witness :
    elide ("ab") 5 = "ab" ∧
    (elide ("abcdefgh") 3).length = 4 ∧
    (elide ("abcdefgh") 3).data.getLast? = some '…' ∧
    (elide ("abcdefgh") 3).data.take 3 = ("abcdefgh" : String).data.take 3 := by
  refine ⟨(elide_contract ("ab") 5).1 (by decide), ?_⟩
  have h := (elide_contract ("abcdefgh") 3).2 (by decide)
  exact h

/-- C6.  `formatBytes` selects the binary-megabyte rendering with two
decimal places for `n ≥ 2^20`, the binary-kilobyte rendering rounded to an
integer for `2^10 ≤ n < 2^20`, and raw bytes otherwise; and the three
concrete examples. -/
theorem formatBytes_contract :
    (∀ n : Nat, n < 1024 → formatBytes n = toString n ++ " B") ∧
    (∀ n : Nat, 1024 ≤ n → n < 1048576 →
      formatBytes n = toString ((n + 512) / 1024) ++ " KB") ∧
    (∀ n : Nat, 1048576 ≤ n →
      formatBytes n =
        toString ((200 * n + 1048576) / 2097152 / 100) ++ "." ++
          pad2 ((200 * n + 1048576) / 2097152 % 100) ++ " MB") ∧
    formatBytes 500 = "500 B" ∧
    formatBytes 2048 = "2 KB" ∧
    formatBytes (3 * 1024 * 1024) = "3.00 MB" := by
  refine ⟨?_, ?_, ?_, by decide, by decide, by decide⟩
  · intro n h
    have h1 : ¬ MB ≤ n := by simp only [MB, KB]; omega
    have h2 : ¬ KB ≤ n := by simp only [KB]; omega
    simp [formatBytes, h1, h2]
  · intro n h1 h2
    have hmb : ¬ MB ≤ n := by simp only [MB, KB]; omega
    have hkb : KB ≤ n := by simp only [KB]; omega
    simp only [formatBytes, hmb, if_false, hkb, if_true]
    have : roundHalfUp n KB = (n + 512) / 1024 := by
      simp only [roundHalfUp, KB]
      omega
    rw [this]
  · intro n h
    have hmb : MB ≤ n := by simp only [MB, KB]; omega
    simp only [formatBytes, hmb, if_true]
    have : roundHalfUp (100 * n) MB = (200 * n + 1048576) / 2097152 := by
      simp only [roundHalfUp, MB, KB]
      ring_nf
    rw [this]

/-- C6 witness at concrete inputs for each hypothesis-bearing conjunct. -/
theorem formatBytes_contract_witness :
    formatBytes 500 = toString 500 ++ " B" ∧
    formatBytes 2048 = toString ((2048 + 512) / 1024) ++ " KB" ∧
    formatBytes 3145728 =
      toString ((200 * 3145728 + 1048576) / 2097152 / 100) ++ "." ++
        pad2 ((200 * 3145728 + 1048576) / 2097152 % 100) ++ " MB" :=
  ⟨formatBytes_contract.1 500 (by decide),
   formatBytes_contract.2.1 2048 (by decide) (by decide),
   formatBytes_contract.2.2.1 3145728 (by decide)⟩

/-- C7 counterexample.  The claim asserts
`sortByPrecedence(["b","a"], "a", "b") < 0`, but in the code `"a"` has index
1 and `"b"` index 0 in the precedence list, so the comparator returns
`1 - 0 = 1 > 0` (the claim's own general rule: the smaller index sorts
first, and `"b"` is listed first). -/
theorem sortByPrecedence_example_counterexample :
    sortByPrecedence [("b"), ("a")] ("a") ("b") = 1 ∧
    ¬ sortByPrecedence [("b"), ("a")] ("a") ("b") < 0 := by
  constructor
  · rfl
  · decide

/-- C7 (amended: the first concrete example returns a positive value, since
`"b"` precedes `"a"` in the precedence list).  Both listed: difference of
indices, so the smaller index sorts first; exactly one listed: the listed
one sorts first (negative when `a` is listed, positive when `b` is);
neither listed: locale comparison. -/
theorem sortByPrecedence_contract_amended :
    (∀ p a b, 0 ≤ jsIndexOf p a → 0 ≤ jsIndexOf p b →
      sortByPrecedence p a b = jsIndexOf p a - jsIndexOf p b) ∧
    (∀ p a b, 0 ≤ jsIndexOf p a → jsIndexOf p b = -1 →
      sortByPrecedence p a b = -1) ∧
    (∀ p a b, jsIndexOf p a = -1 → 0 ≤ jsIndexOf p b →
      sortByPrecedence p a b = 1) ∧
    (∀ p a b, jsIndexOf p a = -1 → jsIndexOf p b = -1 →
      sortByPrecedence p a b = localeCompare a b) ∧
    sortByPrecedence [("b"), ("a")] ("a") ("b") > 0 ∧
    sortByPrecedence [("b"), ("a")] ("z") ("a") > 0 := by
  refine ⟨?_, ?_, ?_, ?_, by decide, by decide⟩
  · intro p a b ha hb
    have ha' : ¬ jsIndexOf p a = -1 := by omega
    have hb' : ¬ jsIndexOf p b = -1 := by omega
    simp only [sortByPrecedence]
    rw [if_neg (by tauto), if_neg (by tauto), if_neg (by tauto)]
  · intro p a b ha hb
    have ha' : ¬ jsIndexOf p a = -1 := by omega
    simp only [sortByPrecedence]
    rw [if_neg (by tauto), if_neg (by tauto), if_pos ⟨hb, ha⟩]
  · intro p a b ha hb
    have hb' : ¬ jsIndexOf p b = -1 := by omega
    simp only [sortByPrecedence]
    rw [if_neg (by tauto), if_pos ⟨ha, hb⟩]
  · intro p a b ha hb
    simp only [sortByPrecedence]
    rw [if_pos ⟨ha, hb⟩]

/-! ## Theorems for `stableHasher` -/

theorem lookupAssigned_mem {α : Type} :
    ∀ {l : List (Nat × α)} {h : Nat} {v : α},
      lookupAssigned l h = some v → (h, v) ∈ l
  | [], _, _, hl => by simp [lookupAssigned] at hl
  | (k, w) :: rest, h, v, hl => by
    by_cases hk : k = h
    · subst hk
      simp [lookupAssigned] at hl
      subst hl
      exact List.mem_cons_self _ _
    · simp only [lookupAssigned, if_neg hk] at hl
      exact List.mem_cons_of_mem _ (lookupAssigned_mem hl)

theorem lookupAssigned_none {α : Type} :
    ∀ {l : List (Nat × α)} {h : Nat},
      lookupAssigned l h = none → h ∉ l.map Prod.fst
  | [], _, _ => by simp
  | (k, w) :: rest, h, hl => by
    by_cases hk : k = h
    · subst hk
      simp [lookupAssigned] at hl
    · simp only [lookupAssigned, if_neg hk] at hl
      simp only [List.map_cons, List.mem_cons]
      push_neg
      exact ⟨fun e => hk e.symm, lookupAssigned_none hl⟩

/-- Removing the element `splice` extracts and putting it back in front is a
permutation of the original list. -/
theorem getD_cons_eraseIdx_perm {α : Type} :
    ∀ (l : List α) (i : Nat) (d : α), i < l.length →
      List.Perm (l.getD i d :: l.eraseIdx i) l
  | [], i, d, h => absurd h (by simp)
  | x :: xs, 0, d, _ => by simp [List.getD]
  | x :: xs, i + 1, d, h => by
    have hi : i < xs.length := by
      simp only [List.length_cons] at h
      omega
    have ih := getD_cons_eraseIdx_perm xs i d hi
    have hswap : List.Perm (xs.getD i d :: x :: xs.eraseIdx i)
        (x :: xs.getD i d :: xs.eraseIdx i) := List.Perm.swap _ _ _
    simpa using hswap.trans (List.Perm.cons x ih)

/-- Invariant of a hasher state over initial pool `pool`: the remaining
working items and the already-assigned items together are a permutation of
the pool, and the memo object's keys are pairwise distinct. -/
def InvH {α : Type} (pool : List α) (s : HState α) : Prop :=
  List.Perm (s.items ++ s.assigned.map Prod.snd) pool ∧
    (s.assigned.map Prod.fst).Nodup

theorem invH_init {α : Type} (pool : List α) : InvH pool (stableHasher pool) := by
  constructor
  · simp [stableHasher]
  · simp [stableHasher]

theorem invH_hashCall {α : Type} {pool : List α} {s : HState α} (h : Nat)
    (inv : InvH pool s) : InvH pool (hashCall s h).2 := by
  unfold hashCall
  cases hl : lookupAssigned s.assigned h with
  | some v => exact inv
  | none =>
    cases hitems : s.items with
    | nil => exact inv
    | cons x xs =>
      have hi : h % (x :: xs).length < (x :: xs).length :=
        Nat.mod_lt _ (by simp)
      constructor
      · show List.Perm ((x :: xs).eraseIdx (h % (x :: xs).length) ++
          ((x :: xs).getD (h % (x :: xs).length) x :: s.assigned.map Prod.snd)) pool
        have p2 := (getD_cons_eraseIdx_perm (x :: xs) (h % (x :: xs).length) x
          hi).append_right (s.assigned.map Prod.snd)
        have p2' : List.Perm ((x :: xs).getD (h % (x :: xs).length) x ::
            ((x :: xs).eraseIdx (h % (x :: xs).length) ++ s.assigned.map Prod.snd))
            ((x :: xs) ++ s.assigned.map Prod.snd) := by
          simpa using p2
        have p3 : List.Perm ((x :: xs) ++ s.assigned.map Prod.snd) pool := by
          rw [← hitems]
          exact inv.1
        exact List.perm_middle.trans (p2'.trans p3)
      · show (h :: s.assigned.map Prod.fst).Nodup
        exact List.nodup_cons.mpr ⟨lookupAssigned_none hl, inv.2⟩

theorem invH_runCalls {α : Type} {pool : List α} {s : HState α}
    (inv : InvH pool s) : ∀ hs : List Nat, InvH pool (runCalls s hs)
  | [] => inv
  | h :: hs => invH_runCalls (invH_hashCall h inv) hs

/-- Values memoized under distinct keys are distinct, provided the value
column has no duplicates. -/
theorem assigned_values_distinct {α : Type} :
    ∀ {l : List (Nat × α)} {h₁ h₂ : Nat} {v₁ v₂ : α},
      (l.map Prod.snd).Nodup → (h₁, v₁) ∈ l → (h₂, v₂) ∈ l → h₁ ≠ h₂ →
      v₁ ≠ v₂
  | [], _, _, _, _, _, m1, _, _ => by simp at m1
  | (k, w) :: rest, h₁, h₂, v₁, v₂, hd, m1, m2, hne => by
    simp only [List.map_cons, List.nodup_cons] at hd
    rcases List.mem_cons.mp m1 with e1 | t1 <;> rcases List.mem_cons.mp m2 with e2 | t2
    · rw [Prod.mk.injEq] at e1 e2
      exact absurd (e1.1.trans e2.1.symm) hne
    · rw [Prod.mk.injEq] at e1
      intro hv
      apply hd.1
      rw [← e1.2, hv]
      exact List.mem_map_of_mem Prod.snd t2
    · rw [Prod.mk.injEq] at e2
      intro hv
      apply hd.1
      rw [← e2.2, ← hv]
      exact List.mem_map_of_mem Prod.snd t1
    · exact assigned_values_distinct hd.2 t1 t2 hne

/-- Calling again with the same hash reproduces the first answer. -/
theorem hashCall_repeat {α : Type} (s : HState α) (h : Nat) :
    (hashCall (hashCall s h).2 h).1 = (hashCall s h).1 := by
  unfold hashCall
  cases hl : lookupAssigned s.assigned h with
  | some v => simp [hl]
  | none =>
    cases hitems : s.items with
    | nil => simp [hl, hitems, hashCall]
    | cons x xs => simp [lookupAssigned]

/-- C1 counterexample.  With the duplicate pool `[0, 0]` the two distinct
hashes `0` and `1` both receive the item `0`: the claim's "any two distinct
hashes that both receive a non-null item receive distinct items" fails for
pools with repeated items. -/
theorem stableHasher_duplicate_pool_counterexample :
    (hashCall (stableHasher [(0 : Nat), 0]) 0).1 = some 0 ∧
    (hashCall (hashCall (stableHasher [(0 : Nat), 0]) 0).2 1).1 = some 0 ∧
    (0 : Nat) ≠ 1 := by
  decide

/-- C1 (amended: the distinct-items guarantee additionally requires the
pool's items to be pairwise distinct; with repeated items two distinct
hashes can receive equal items).  For any state reached by a sequence of
calls on a hasher instance: calling twice with one hash gives the same
answer both times; a memoized hash keeps returning its memoized item; for a
duplicate-free pool, distinct memoized hashes hold distinct items; a
non-null answer is memoized; and once as many hashes are memoized as the
pool had items, every not-yet-seen hash gets `none`. -/
theorem stableHasher_contract_amended {α : Type} (pool : List α) (hs : List Nat) :
    (∀ h, (hashCall (hashCall (runCalls (stableHasher pool) hs) h).2 h).1 =
      (hashCall (runCalls (stableHasher pool) hs) h).1) ∧
    (∀ h v, lookupAssigned (runCalls (stableHasher pool) hs).assigned h = some v →
      (hashCall (runCalls (stableHasher pool) hs) h).1 = some v) ∧
    (pool.Nodup → ∀ h₁ h₂ v₁ v₂, h₁ ≠ h₂ →
      lookupAssigned (runCalls (stableHasher pool) hs).assigned h₁ = some v₁ →
      lookupAssigned (runCalls (stableHasher pool) hs).assigned h₂ = some v₂ →
      v₁ ≠ v₂) ∧
    (∀ h v, (hashCall (runCalls (stableHasher pool) hs) h).1 = some v →
      lookupAssigned (hashCall (runCalls (stableHasher pool) hs) h).2.assigned h =
        some v) ∧
    ((runCalls (stableHasher pool) hs).assigned.length = pool.length →
      ∀ h, lookupAssigned (runCalls (stableHasher pool) hs).assigned h = none →
        (hashCall (runCalls (stableHasher pool) hs) h).1 = none) := by
  have inv : InvH pool (runCalls (stableHasher pool) hs) :=
    invH_runCalls (invH_init pool) hs
  set s := runCalls (stableHasher pool) hs with hsdef
  refine ⟨fun h => hashCall_repeat s h, ?_, ?_, ?_, ?_⟩
  · intro h v hl
    unfold hashCall
    simp [hl]
  · intro hnd h₁ h₂ v₁ v₂ hne hl1 hl2
    have hvals : (s.items ++ s.assigned.map Prod.snd).Nodup :=
      inv.1.symm.nodup hnd
    exact assigned_values_distinct (List.Nodup.of_append_right hvals)
      (lookupAssigned_mem hl1) (lookupAssigned_mem hl2) hne
  · intro h v hv
    unfold hashCall at hv ⊢
    cases hl : lookupAssigned s.assigned h with
    | some w =>
      simp only [hl] at hv ⊢
      exact hv
    | none =>
      cases hitems : s.items with
      | nil => simp [hl, hitems] at hv
      | cons x xs =>
        simp only [hl, hitems] at hv ⊢
        simp [lookupAssigned] at hv ⊢
        exact hv
  · intro hlen h hl
    have hcount : s.items.length + s.assigned.length = pool.length := by
      have := inv.1.length_eq
      simp only [List.length_append, List.length_map] at this
      exact this
    have hempty : s.items = [] := by
      have : s.items.length = 0 := by omega
      exact List.length_eq_zero.mp this
    unfold hashCall
    simp [hl, hempty]

/-- C1 witness: a run on the pool `[10, 20]` with calls `[0, 1]`, checking
each hypothesis-bearing conjunct at concrete hashes. -/
theorem stableHasher_contract_witness :
    (hashCall (runCalls (stableHasher [10, 20]) [0, 1]) 0).1 = some 10 ∧
    ((10 : Nat) ≠ 20) ∧
    (hashCall (runCalls (stableHasher [10, 20]) [0, 1]) 5).1 = none := by
  have c := stableHasher_contract_amended [10, 20] [0, 1]
  refine ⟨c.2.1 0 10 (by decide), by decide, ?_⟩
  exact c.2.2.2.2 (by decide) 5 (by decide)

/-! ## Theorems for `dfs` -/

mutual
theorem dfsList_fst : ∀ (n : JNode) (p : String),
    (dfsList n p).map Prod.fst = preorder n
  | .node d hc cs, p => by
    simp only [dfsList, preorder]
    cases hc with
    | true => simp [dfsListL_fst cs]
    | false => simp
theorem dfsListL_fst : ∀ (l : List JNode) (p : String),
    (dfsListL l p).map Prod.fst = preorderL l
  | [], p => by simp [dfsListL, preorderL]
  | c :: cs, p => by
    simp [dfsListL, preorderL, dfsList_fst c, dfsListL_fst cs]
end

theorem self_mem_preorder : ∀ n : JNode, n ∈ preorder n
  | .node d hc cs => by
    simp only [preorder]
    exact List.mem_cons_self _ _

theorem joinPath_append_singleton : ∀ (l : List String) (b : String),
    joinPath (l ++ [b]) = if l = [] then b else joinPath l ++ "/" ++ b
  | [], b => by simp [joinPath]
  | [x], b => by simp [joinPath]
  | x :: y :: ys, b => by
    have ih := joinPath_append_singleton (y :: ys) b
    rw [if_neg (by simp)] at ih
    have h1 : joinPath (x :: y :: ys ++ [b]) =
        x ++ "/" ++ joinPath (y :: ys ++ [b]) := rfl
    have h2 : joinPath (x :: y :: ys) = x ++ "/" ++ joinPath (y :: ys) := rfl
    rw [if_neg (by simp), h1, ih, h2]
    simp [String.append_assoc]

theorem joinPath_cons_ne_empty :
    ∀ (a : String) (rest : List String), a ≠ "" → joinPath (a :: rest) ≠ ""
  | a, [], h => by simpa [joinPath] using h
  | a, r :: rs, h => by
    intro hcontra
    have heq : joinPath (a :: r :: rs) = a ++ "/" ++ joinPath (r :: rs) := rfl
    rw [heq] at hcontra
    have hlen := congrArg String.length hcontra
    rw [String.length_append, String.length_append] at hlen
    have hone : ("/" : String).length = 1 := rfl
    have hzero : ("" : String).length = 0 := rfl
    omega

mutual
theorem dfsList_eq_specPaths : ∀ (n : JNode) (anc : List String),
    (∀ m, m ∈ preorder n → m.data.id ≠ "") →
    (∀ a, a ∈ anc → a ≠ "") →
    dfsList n (joinPath anc) = dfsSpecPaths n anc
  | .node d hc cs, anc, hids, hanc => by
    have hid : d.id ≠ "" := by
      have := hids (JNode.node d hc cs) (self_mem_preorder _)
      exact this
    have hfull : (if joinPath anc = "" then d.id
        else joinPath anc ++ "/" ++ d.id) = joinPath (anc ++ [d.id]) := by
      cases anc with
      | nil => simp [joinPath]
      | cons a rest =>
        have hne : joinPath (a :: rest) ≠ "" :=
          joinPath_cons_ne_empty a rest (hanc a (List.mem_cons_self _ _))
        rw [if_neg hne, joinPath_append_singleton, if_neg (by simp)]
    simp only [dfsList, dfsSpecPaths, hfull]
    cases hc with
    | false => simp
    | true =>
      simp only [if_true]
      congr 1
      apply dfsListL_eq_specPathsL
      · intro m hm
        apply hids
        simp only [preorder, if_true]
        exact List.mem_cons_of_mem _ hm
      · intro a ha
        rcases List.mem_append.mp ha with h | h
        · exact hanc a h
        · rw [List.mem_singleton.mp h]
          exact hid
theorem dfsListL_eq_specPathsL : ∀ (l : List JNode) (anc : List String),
    (∀ m, m ∈ preorderL l → m.data.id ≠ "") →
    (∀ a, a ∈ anc → a ≠ "") →
    dfsListL l (joinPath anc) = dfsSpecPathsL l anc
  | [], anc, _, _ => rfl
  | c :: cs, anc, hids, hanc => by
    have h1 : ∀ m, m ∈ preorder c → m.data.id ≠ "" := by
      intro m hm
      exact hids m (by simp only [preorderL]; exact List.mem_append_left _ hm)
    have h2 : ∀ m, m ∈ preorderL cs → m.data.id ≠ "" := by
      intro m hm
      exact hids m (by simp only [preorderL]; exact List.mem_append_right _ hm)
    simp only [dfsListL, dfsSpecPathsL]
    rw [dfsList_eq_specPaths c anc h1 hanc, dfsListL_eq_specPathsL cs anc h2 hanc]
end

/-- C8 counterexample.  With a root whose `id` is the empty string the
code's truthiness test makes the child's full path `"c"`, while the
ancestors-joined-with-`/` description gives `"/c"`: the claimed path shape
fails for empty ids. -/
theorem dfs_empty_id_counterexample :
    (dfsList c8empty ("")).map Prod.snd = [(""), ("c")] ∧
    (dfsSpecPaths c8empty []).map Prod.snd = [(""), ("/c")] ∧
    dfsList c8empty ("") ≠ dfsSpecPaths c8empty [] := by
  have h1 : (dfsList c8empty ("")).map Prod.snd = [(""), ("c")] := by decide
  have h2 : (dfsSpecPaths c8empty []).map Prod.snd = [(""), ("/c")] := by decide
  refine ⟨h1, h2, fun h => ?_⟩
  rw [h, h2] at h1
  exact absurd h1 (by decide)

/-- C8 (amended: the ancestors-joined-with-`/` description of the paths
holds provided every node id is a non-empty string; the code's truthy test
on the accumulated path collapses empty ids).  The visit sequence is
exactly the pre-order node list (every node once, a node before its
descendants, children in array order); under the non-empty-ids hypothesis
the accumulated paths agree with the declarative ancestors-join
definition; and the three-level chain yields the three claimed paths. -/
theorem dfs_paths_contract_amended :
    (∀ (n : JNode) (p : String), (dfsList n p).map Prod.fst = preorder n) ∧
    (∀ n : JNode, (∀ m, m ∈ preorder n → m.data.id ≠ "") →
      dfsList n ("") = dfsSpecPaths n []) ∧
    (dfsList c8chain ("")).map Prod.snd =
      [("root"), ("root/child"), ("root/child/grandchild")] := by
  refine ⟨dfsList_fst, ?_, by decide⟩
  intro n h
  have := dfsList_eq_specPaths n [] h (by simp)
  simpa [joinPath] using this

/-- C8 witness: the non-empty-ids hypothesis discharged on the concrete
three-level chain. -/
theorem dfs_paths_contract_witness :
    dfsList c8chain ("") = dfsSpecPaths c8chain [] :=
  dfs_paths_contract_amended.2.1 c8chain (by decide)

/-! ## Theorems for the "Unused JS" view mode -/

theorem unusedStep_foldl : ∀ (ns : List JNode) (b : Nat) (ids : List String),
    ns.foldl unusedStep (b, ids) =
      (b + ((ns.filter unusedPred).map (fun n => n.data.wastedBytes)).sum,
       ids ++ (ns.filter unusedPred).map (fun n => n.data.id))
  | [], b, ids => by simp
  | n :: ns, b, ids => by
    rw [List.foldl_cons]
    cases h1 : n.hasChildren with
    | true =>
      have hstep : unusedStep (b, ids) n = (b, ids) := by
        simp [unusedStep, h1]
      have hpred : unusedPred n = false := by
        simp [unusedPred, h1]
      rw [hstep, unusedStep_foldl ns b ids, List.filter_cons_of_neg (by simp [hpred])]
    | false =>
      by_cases h2 : n.data.wastedBytes < 50 * 1024
      · have hstep : unusedStep (b, ids) n = (b, ids) := by
          simp [unusedStep, h1, h2]
        have hpred : unusedPred n = false := by
          simp only [unusedPred, h1, Bool.not_false, Bool.true_and,
            decide_eq_false_iff_not]
          omega
        rw [hstep, unusedStep_foldl ns b ids,
          List.filter_cons_of_neg (by simp [hpred])]
      · have hstep : unusedStep (b, ids) n =
            (b + n.data.wastedBytes, ids ++ [n.data.id]) := by
          simp [unusedStep, h1, h2]
        have hpred : unusedPred n = true := by
          simp only [unusedPred, h1, Bool.not_false, Bool.true_and,
            decide_eq_true_eq]
          omega
        rw [hstep, unusedStep_foldl ns (b + n.data.wastedBytes)
          (ids ++ [n.data.id]), List.filter_cons_of_pos (by simp [hpred])]
        refine Prod.ext ?_ ?_
        · show b + n.data.wastedBytes + _ = b + _
          simp only [List.map_cons, List.sum_cons]
          omega
        · show ids ++ [n.data.id] ++ _ = ids ++ _
          simp [List.append_assoc]

theorem unusedScan_go :
    ∀ (rns : List RootNode) (b : Nat) (ids : List String),
      rns.foldl
        (fun acc rn => ((dfsList rn.node ("")).map Prod.fst).foldl unusedStep acc)
        (b, ids) =
      (b + unusedTotal rns, ids ++ unusedIds rns)
  | [], b, ids => by simp [unusedTotal, unusedIds, unusedLeaves]
  | rn :: rns, b, ids => by
    rw [List.foldl_cons, dfsList_fst rn.node, unusedStep_foldl,
      unusedScan_go rns _ _]
    have ht : unusedTotal (rn :: rns) =
        (((preorder rn.node).filter unusedPred).map
          (fun n => n.data.wastedBytes)).sum + unusedTotal rns := by
      simp [unusedTotal, unusedLeaves]
    have hi : unusedIds (rn :: rns) =
        ((preorder rn.node).filter unusedPred).map (fun n => n.data.id) ++
          unusedIds rns := by
      simp [unusedIds, unusedLeaves]
    rw [ht, hi]
    refine Prod.ext (by show _ = _; omega) (by simp [List.append_assoc])

/-- C4.  The "Unused JS" view mode aggregates `wastedBytes` over exactly
the leaves wasting at least 50 KiB, its highlight set is exactly their
ids, it is offered iff that sum is positive, and the two concrete
fixtures behave as claimed (`60 KiB` wasted: offered as
`"Unused JS (60 KB)"`; `10 KiB` wasted: not offered). -/
theorem unused_view_mode_contract :
    (∀ rns : List RootNode,
      unusedViewMode rns =
        if unusedTotal rns ≠ 0 then
          some ⟨("unused-js"), "Unused JS (" ++ formatBytes (unusedTotal rns) ++ ")",
            Metric.wastedBytes, unusedIds rns⟩
        else none) ∧
    unusedViewMode
        [⟨"x", JNode.node ⟨"x", "x", 0, 61440, none, false, 0, false⟩ false []⟩] =
      some ⟨("unused-js"), ("Unused JS (60 KB)"), Metric.wastedBytes, [("x")]⟩ ∧
    unusedViewMode
        [⟨"y", JNode.node ⟨"y", "y", 0, 10240, none, false, 0, false⟩ false []⟩] =
      none := by
  refine ⟨?_, by decide, by decide⟩
  intro rns
  have h : unusedScan rns = (unusedTotal rns, unusedIds rns) := by
    have := unusedScan_go rns 0 []
    simpa [unusedScan] using this
  rw [unusedViewMode, h]

/-! ## Theorems for `show` and `setTitle` -/

/-- C3.  `show(mode)` throws `'invalid mode selector'` for every selector
type other than `'group'` and `'rootNodeId'`, and for `'rootNodeId'` it
throws `'unknown root node'` exactly when no root node in the treemap data
has the selector's value as its id.  In the model a thrown error is an
`Except.error`, under which no new `currentRootNode` is produced — the
rendered state is not rebuilt. -/
theorem show_selector_errors (data : TreemapData) (documentUrl : String)
    (mode : Mode) :
    (mode.selector.type ≠ "group" → mode.selector.type ≠ "rootNodeId" →
      showSelect data documentUrl mode = Except.error ("invalid mode selector")) ∧
    (mode.selector.type = "rootNodeId" →
      (showSelect data documentUrl mode = Except.error ("unknown root node") ↔
        ∀ rn ∈ (data.map (fun g => g.2)).flatten, rn.id ≠ mode.selector.value)) := by
  constructor
  · intro h1 h2
    simp only [showSelect, if_neg h1, if_neg h2]
  · intro h
    have hng : mode.selector.type ≠ "group" := by
      rw [h]
      decide
    have hred : showSelect data documentUrl mode =
        (match findRootNode data mode.selector.value with
         | none => Except.error ("unknown root node")
         | some rn => Except.ok rn.node) := by
      simp only [showSelect, if_neg hng, if_pos h]
    rw [hred]
    cases hf : findRootNode data mode.selector.value with
    | none =>
      refine iff_of_true rfl ?_
      intro rn hm
      rw [findRootNode] at hf
      simpa using List.find?_eq_none.mp hf rn hm
    | some rn =>
      refine iff_of_false (by simp) ?_
      rw [findRootNode] at hf
      have hmem := List.mem_of_find?_eq_some hf
      have hp := List.find?_some hf
      intro hall
      exact hall rn hmem (by simpa using hp)

/-- C3 witness on concrete inputs: a bogus selector type, and a
`rootNodeId` selector over empty data. -/
theorem show_selector_errors_witness :
    showSelect [] ("url") ⟨⟨"bogus", "x"⟩, none, none⟩ =
      Except.error ("invalid mode selector") ∧
    (showSelect [] ("url") ⟨⟨"rootNodeId", "x"⟩, none, none⟩ =
        Except.error ("unknown root node") ↔
      ∀ rn ∈ (([] : TreemapData).map (fun g => g.2)).flatten, rn.id ≠ "x") :=
  ⟨(show_selector_errors [] ("url") ⟨⟨"bogus", "x"⟩, none, none⟩).1
      (by decide) (by decide),
   (show_selector_errors [] ("url") ⟨⟨"rootNodeId", "x"⟩, none, none⟩).2 rfl⟩

/-- C9.  For a `'group'` selector whose value is not a key of the treemap
data, the group lookup yields `undefined` and the unguarded
`rootNodes.map` call throws a `TypeError` — neither of the two specified
errors — and no new `currentRootNode` is produced. -/
theorem show_missing_group_type_error (data : TreemapData)
    (documentUrl : String) (mode : Mode) :
    mode.selector.type = "group" →
    lookupGroup data mode.selector.value = none →
    (showSelect data documentUrl mode =
        Except.error ("TypeError: rootNodes is undefined") ∧
      showSelect data documentUrl mode ≠ Except.error ("invalid mode selector") ∧
      showSelect data documentUrl mode ≠ Except.error ("unknown root node")) := by
  intro h hg
  have hred : showSelect data documentUrl mode =
      Except.error ("TypeError: rootNodes is undefined") := by
    simp only [showSelect, if_pos h, hg]
  refine ⟨hred, ?_, ?_⟩
  · rw [hred]
    intro hc
    injection hc with hs
    exact absurd hs (by decide)
  · rw [hred]
    intro hc
    injection hc with hs
    exact absurd hs (by decide)

/-- C9 witness: one group `"scripts"` is present, `"nope"` is requested. -/
theorem show_missing_group_type_error_witness :
    showSelect [(("scripts"), [])] ("url") ⟨⟨"group", "nope"⟩, none, none⟩ =
      Except.error ("TypeError: rootNodes is undefined") :=
  (show_missing_group_type_error [(("scripts"), [])] ("url")
    ⟨⟨"group", "nope"⟩, none, none⟩ rfl rfl).1

mutual
theorem setTitleGo_ids : ∀ (pb : Metric) (total : Nat) (n : JNode),
    (preorder (setTitleGo pb total false n)).map (fun m => m.data.id) =
      (preorder n).map (fun m => labelFor pb total false m.data)
  | pb, total, .node d hc cs => by
    cases hc with
    | true =>
      show (JNode.node (d.withId (labelFor pb total false d)) true
            (setTitleGoL pb total cs) ::
          preorderL (setTitleGoL pb total cs)).map (fun m => m.data.id) =
        (JNode.node d true cs :: preorderL cs).map
          (fun m => labelFor pb total false m.data)
      simp only [List.map_cons]
      rw [setTitleGoL_ids pb total cs]
      rfl
    | false =>
      show (JNode.node (d.withId (labelFor pb total false d)) false cs ::
          ([] : List JNode)).map (fun m => m.data.id) =
        (JNode.node d false cs :: ([] : List JNode)).map
          (fun m => labelFor pb total false m.data)
      rfl
theorem setTitleGoL_ids : ∀ (pb : Metric) (total : Nat) (l : List JNode),
    (preorderL (setTitleGoL pb total l)).map (fun m => m.data.id) =
      (preorderL l).map (fun m => labelFor pb total false m.data)
  | pb, total, [] => rfl
  | pb, total, c :: cs => by
    simp only [setTitleGoL, preorderL, List.map_append]
    rw [setTitleGo_ids pb total c, setTitleGoL_ids pb total cs]
end

/-- C2 counterexample.  In the end-to-end fixture (leaves of 100 and 300
bytes under a 400-byte root, shown by `rootNodeId` with
`partitionBy: 'bytes'`) the 100-byte leaf's label reads `25%` — 100/400
rounded — and does not contain the claimed `"33%"`. -/
theorem setTitle_percent_counterexample :
    (showLabelsTree (initData c2data) ("https://example.com/") c2mode).map
        (fun t => (preorder t).map (fun m => m.data.id)) =
      Except.ok [("rootid • bytes: 400 B (100%)"), ("a • 100 B (25%)"),
        ("b • 300 B (75%)")] ∧
    containsSub ("a • 100 B (25%)" : String).data ("33%" : String).data =
      false := by
  exact ⟨by rfl, by decide⟩

/-- C2 (amended: in the concrete example the 100-byte leaf's label
contains `"25%"`, not `"33%"`; 100/400 of the root total is 25%).  Every
node's synthesized label is `elide(originalId, 60)` joined by `" • "` with
`"{formatted value} ({percent}%)"`, the percent being the node's
active-metric value over the shown root's, rounded; the root node
additionally prefixes the metric section with the metric name; and the
end-to-end fixture yields root aggregate 400 and leaf labels with 25% and
75%. -/
theorem setTitle_labels_amended :
    (∀ (pb : Metric) (total : Nat) (d : NodeData) (hc : Bool)
        (cs : List JNode),
      (preorder (setTitleGo pb total true (JNode.node d hc cs))).map
          (fun m => m.data.id) =
        (elide d.originalId 60 ++ " • " ++ (metricName pb ++ ": " ++
          (format (metricValueData d pb) (sectionUnitFor pb) ++ " (" ++
            roundPctStr (metricValueData d pb) total ++ "%)"))) ::
        (if hc then (preorderL cs).map (fun m =>
            elide m.data.originalId 60 ++ " • " ++
            (format (metricValueData m.data pb) (sectionUnitFor pb) ++ " (" ++
              roundPctStr (metricValueData m.data pb) total ++ "%)"))
          else [])) ∧
    (showSelect (initData c2data) ("https://example.com/") c2mode).map
        (fun t => t.data.bytes) = Except.ok 400 ∧
    (showLabelsTree (initData c2data) ("https://example.com/") c2mode).map
        (fun t => (preorder t).map (fun m => m.data.id)) =
      Except.ok [("rootid • bytes: 400 B (100%)"), ("a • 100 B (25%)"),
        ("b • 300 B (75%)")] := by
  refine ⟨?_, by rfl, by rfl⟩
  intro pb total d hc cs
  cases hc with
  | true =>
    show (JNode.node (d.withId (labelFor pb total true d)) true
          (setTitleGoL pb total cs) ::
        preorderL (setTitleGoL pb total cs)).map (fun m => m.data.id) = _
    simp only [List.map_cons]
    rw [setTitleGoL_ids pb total cs]
    simp only [if_true]
    rfl
  | false =>
    show (JNode.node (d.withId (labelFor pb total true d)) false cs ::
        ([] : List JNode)).map (fun m => m.data.id) = _
    rfl

/-! ## Theorems for `updateColors` and the color session -/

theorem hashCall_none_frozen {α : Type} (s : HState α) (h : Nat) :
    (hashCall s h).1 = none → (hashCall s h).2 = s := by
  unfold hashCall
  cases hl : lookupAssigned s.assigned h with
  | some v => simp
  | none =>
    cases hi : s.items with
    | nil => simp
    | cons x xs => simp

theorem hashCall_key_mono {α : Type} (s : HState α) (h k : Nat) :
    k ∈ assignedKeys s → k ∈ assignedKeys (hashCall s h).2 := by
  intro hk
  unfold hashCall
  cases hl : lookupAssigned s.assigned h with
  | some v => exact hk
  | none =>
    cases hi : s.items with
    | nil => exact hk
    | cons x xs =>
      show k ∈ (((h, _) :: s.assigned).map Prod.fst)
      exact List.mem_cons_of_mem _ hk

theorem hashCall_some_mem {α : Type} (s : HState α) (h : Nat) (v : α) :
    (hashCall s h).1 = some v → h ∈ assignedKeys (hashCall s h).2 := by
  unfold hashCall
  cases hl : lookupAssigned s.assigned h with
  | some w =>
    intro _
    exact List.mem_map_of_mem Prod.fst (lookupAssigned_mem hl)
  | none =>
    cases hi : s.items with
    | nil => intro hv; simp at hv
    | cons x xs =>
      intro _
      show h ∈ (((h, _) :: s.assigned).map Prod.fst)
      exact List.mem_cons_self _ _

theorem colorStep_key_mono (mode : Mode) (s : HState ℚ) (n : JNode) (k : Nat) :
    k ∈ assignedKeys s → k ∈ assignedKeys (colorStep mode s n).2 := by
  intro hk
  unfold colorStep
  by_cases hdom : n.data.dom = false
  · simp only [if_pos hdom]
    exact hk
  · simp only [if_neg hdom]
    cases mode.highlightNodeIds with
    | some ids => exact hk
    | none =>
      cases hr : (hashCall s n.data.idHash).1 with
      | none =>
        simp only [hr]
        exact hashCall_key_mono s n.data.idHash k hk
      | some hue =>
        simp only [hr]
        exact hashCall_key_mono s n.data.idHash k hk

theorem colorStep_paint_key (mode : Mode) (s : HState ℚ) (n : JNode) :
    (colorStep mode s n).1.isPaint = true →
    n.data.idHash ∈ assignedKeys (colorStep mode s n).2 := by
  unfold colorStep
  by_cases hdom : n.data.dom = false
  · simp only [if_pos hdom]
    intro hp
    exact absurd hp (by simp [ColorAction.isPaint])
  · simp only [if_neg hdom]
    cases mode.highlightNodeIds with
    | some ids =>
      by_cases hmem : n.data.originalId ∈ ids
      · simp only [if_pos hmem]
        intro hp
        exact absurd hp (by simp [ColorAction.isPaint])
      · simp only [if_neg hmem]
        intro hp
        exact absurd hp (by simp [ColorAction.isPaint])
    | none =>
      cases hr : (hashCall s n.data.idHash).1 with
      | none =>
        simp only [hr]
        intro hp
        exact absurd hp (by simp [ColorAction.isPaint])
      | some hue =>
        simp only [hr]
        intro _
        exact hashCall_some_mem s n.data.idHash hue hr

theorem updateColorsGo_keys (mode : Mode) :
    ∀ (ns : List JNode) (s : HState ℚ),
      (∀ k, k ∈ assignedKeys s →
        k ∈ assignedKeys (updateColorsGo mode ns s).2) ∧
      (∀ p, p ∈ (updateColorsGo mode ns s).1 → p.2.isPaint = true →
        p.1.data.idHash ∈ assignedKeys (updateColorsGo mode ns s).2)
  | [], s => ⟨fun _ hk => hk, fun p hp => by simp [updateColorsGo] at hp⟩
  | n :: ns, s => by
    have ih := updateColorsGo_keys mode ns (colorStep mode s n).2
    constructor
    · intro k hk
      show k ∈ assignedKeys (updateColorsGo mode ns (colorStep mode s n).2).2
      exact ih.1 k (colorStep_key_mono mode s n k hk)
    · intro p hp hpaint
      have hp' : p = (n, (colorStep mode s n).1) ∨
          p ∈ (updateColorsGo mode ns (colorStep mode s n).2).1 :=
        List.mem_cons.mp hp
      show p.1.data.idHash ∈
        assignedKeys (updateColorsGo mode ns (colorStep mode s n).2).2
      rcases hp' with rfl | hmem
      · exact ih.1 _ (colorStep_paint_key mode s n hpaint)
      · exact ih.2 p hmem hpaint

theorem sessionRun_keys :
    ∀ (steps : List (Mode × JNode)) (s : HState ℚ),
      (∀ k, k ∈ assignedKeys s → k ∈ assignedKeys (sessionRun steps s).2) ∧
      (∀ p, p ∈ (sessionRun steps s).1 → p.2.isPaint = true →
        p.1.data.idHash ∈ assignedKeys (sessionRun steps s).2)
  | [], s => ⟨fun _ hk => hk, fun p hp => by simp [sessionRun] at hp⟩
  | (m, t) :: steps, s => by
    have hstep := updateColorsGo_keys m (preorder t) s
    have ih := sessionRun_keys steps (updateColors m t s).2
    constructor
    · intro k hk
      exact ih.1 k (hstep.1 k hk)
    · intro p hp hpaint
      have hp' : p ∈ (updateColors m t s).1 ∨
          p ∈ (sessionRun steps (updateColors m t s).2).1 :=
        List.mem_append.mp hp
      rcases hp' with hmem | hmem
      · exact ih.1 _ (hstep.2 p hmem hpaint)
      · exact ih.2 p hmem hpaint

theorem invH_colorStep {pool : List ℚ} (mode : Mode) (s : HState ℚ)
    (n : JNode) (inv : InvH pool s) : InvH pool (colorStep mode s n).2 := by
  unfold colorStep
  by_cases hdom : n.data.dom = false
  · simp only [if_pos hdom]
    exact inv
  · simp only [if_neg hdom]
    cases mode.highlightNodeIds with
    | some ids => exact inv
    | none =>
      cases hr : (hashCall s n.data.idHash).1 with
      | none =>
        simp only [hr]
        exact invH_hashCall n.data.idHash inv
      | some hue =>
        simp only [hr]
        exact invH_hashCall n.data.idHash inv

theorem invH_updateColorsGo {pool : List ℚ} (mode : Mode) :
    ∀ (ns : List JNode) (s : HState ℚ), InvH pool s →
      InvH pool (updateColorsGo mode ns s).2
  | [], _, inv => inv
  | n :: ns, s, inv =>
    invH_updateColorsGo mode ns (colorStep mode s n).2
      (invH_colorStep mode s n inv)

theorem invH_sessionRun {pool : List ℚ} :
    ∀ (steps : List (Mode × JNode)) (s : HState ℚ), InvH pool s →
      InvH pool (sessionRun steps s).2
  | [], _, inv => inv
  | (m, t) :: steps, s, inv =>
    invH_sessionRun steps (updateColors m t s).2
      (invH_updateColorsGo m (preorder t) s inv)

theorem assignedKeys_length_le {α : Type} (pool : List α) (s : HState α)
    (inv : InvH pool s) : (assignedKeys s).length ≤ pool.length := by
  have hlen := inv.1.length_eq
  simp only [List.length_append, List.length_map] at hlen
  simp only [assignedKeys, List.length_map]
  omega

mutual
theorem stampTree_idHash : ∀ (h : Nat) (t : JNode) (m : JNode),
    m ∈ preorder (stampTree h t) → m.data.idHash = h
  | h, .node d hc cs, m, hm => by
    cases hc with
    | false =>
      have : m ∈ (JNode.node
          ⟨d.id, d.id, d.bytes, d.wastedBytes, d.executionTime, d.duplicate,
            h, d.dom⟩ false cs :: ([] : List JNode)) := hm
      rcases List.mem_cons.mp this with rfl | hfalse
      · rfl
      · simp at hfalse
    | true =>
      have : m ∈ (JNode.node
          ⟨d.id, d.id, d.bytes, d.wastedBytes, d.executionTime, d.duplicate,
            h, d.dom⟩ true (stampTreeL h cs) ::
          preorderL (stampTreeL h cs)) := hm
      rcases List.mem_cons.mp this with rfl | htail
      · rfl
      · exact stampTreeL_idHash h cs m htail
theorem stampTreeL_idHash : ∀ (h : Nat) (l : List JNode) (m : JNode),
    m ∈ preorderL (stampTreeL h l) → m.data.idHash = h
  | h, [], m, hm => by simp [stampTreeL, preorderL] at hm
  | h, c :: cs, m, hm => by
    simp only [stampTreeL, preorderL] at hm
    rcases List.mem_append.mp hm with h1 | h2
    · exact stampTree_idHash h c m h1
    · exact stampTreeL_idHash h cs m h2
end

/-- C10 counterexample.  A session showing eighteen single-node bundles
whose ids `"ab"`, `"ba"`, `"a"`, …, `"p"` produce only seventeen distinct
character-code sums: every bundle's node is painted (the two colliding ids
share one memoized hue), so eighteen distinct bundles receive hues —
"at most 17 distinct bundles receive hues" fails under idHash
collisions. -/
theorem updateColors_eighteen_bundles_counterexample :
    ((paintedPairs (sessionRun c10steps (stableHasher COLOR_HUES)).1).map
        (fun p => p.1.data.originalId)).dedup.length = 18 ∧ 17 < 18 := by
  exact ⟨by decide, by decide⟩

/-- C10 (amended: what is bounded by 17 is the number of distinct `idHash`
values that ever receive a hue; distinct bundles whose ids collide to one
character-code sum share the memoized hue, so more than 17 bundles can be
painted).  When no highlight set is active, a node with a DOM reference
whose `getHue(idHash)` comes back null is left completely untouched — no
styles change, the hasher state does not change, and no error is raised;
the constructor stamps every node of one root-node tree with the same
`idHash`; and in any session over the 17-entry `COLOR_HUES` pool, at most
17 distinct `idHash` values are ever painted. -/
theorem updateColors_contract_amended :
    (∀ (mode : Mode) (s : HState ℚ) (n : JNode),
      mode.highlightNodeIds = none → n.data.dom = true →
      (hashCall s n.data.idHash).1 = none →
      colorStep mode s n = (ColorAction.untouched, s)) ∧
    (∀ (h : Nat) (t : JNode), ∀ m ∈ preorder (stampTree h t),
      m.data.idHash = h) ∧
    (∀ steps : List (Mode × JNode),
      ((paintedPairs (sessionRun steps (stableHasher COLOR_HUES)).1).map
          (fun p => p.1.data.idHash)).dedup.length ≤ 17) := by
  refine ⟨?_, stampTree_idHash, ?_⟩
  · intro mode s n hhl hdom hnone
    unfold colorStep
    rw [if_neg (by rw [hdom]; simp), hhl]
    simp only [hnone]
    rw [hashCall_none_frozen s n.data.idHash hnone]
  · intro steps
    have hinv : InvH COLOR_HUES (sessionRun steps (stableHasher COLOR_HUES)).2 :=
      invH_sessionRun steps (stableHasher COLOR_HUES) (invH_init COLOR_HUES)
    have hsub : ((paintedPairs (sessionRun steps (stableHasher COLOR_HUES)).1).map
        (fun p => p.1.data.idHash)).dedup ⊆
        assignedKeys (sessionRun steps (stableHasher COLOR_HUES)).2 := by
      intro k hk
      have hk' := List.mem_dedup.mp hk
      rcases List.mem_map.mp hk' with ⟨p, hp, rfl⟩
      have hmem := (List.mem_filter.mp hp).1
      have hpaint := (List.mem_filter.mp hp).2
      exact (sessionRun_keys steps (stableHasher COLOR_HUES)).2 p hmem hpaint
    have hle := (List.Nodup.subperm (List.nodup_dedup _) hsub).length_le
    have hkeys := assignedKeys_length_le COLOR_HUES _ hinv
    have h17 : COLOR_HUES.length = 17 := rfl
    omega

/-- C10 witness: the null-hue conjunct applied to an exhausted hasher and
a DOM-bearing node, and the stamping conjunct applied to the chain
fixture. -/
theorem updateColors_contract_witness :
    colorStep c10mode (HState.mk ([] : List ℚ) [])
        (JNode.node ⟨"x", "x", 0, 0, none, false, 0, true⟩ false []) =
      (ColorAction.untouched, HState.mk ([] : List ℚ) []) ∧
    (stampTree 5 c8chain).data.idHash = 5 :=
  ⟨updateColors_contract_amended.1 c10mode (HState.mk ([] : List ℚ) [])
      (JNode.node ⟨"x", "x", 0, 0, none, false, 0, true⟩ false []) rfl rfl rfl,
   updateColors_contract_amended.2.1 5 c8chain (stampTree 5 c8chain)
      (self_mem_preorder (stampTree 5 c8chain))⟩

/-- C7 witness at concrete inputs for the hypothesis-bearing conjuncts. -/
theorem sortByPrecedence_contract_witness :
    sortByPrecedence [("x"), ("y")] ("x") ("y") =
      jsIndexOf [("x"), ("y")] ("x") - jsIndexOf [("x"), ("y")] ("y") ∧
    sortByPrecedence [("x")] ("x") ("q") = -1 ∧
    sortByPrecedence [("x")] ("q") ("x") = 1 ∧
    sortByPrecedence [] ("p") ("q") = localeCompare ("p") ("q") :=
  ⟨sortByPrecedence_contract_amended.1 _ _ _ (by decide) (by decide),
   sortByPrecedence_contract_amended.2.1 _ _ _ (by decide) (by decide),
   sortByPrecedence_contract_amended.2.2.1 _ _ _ (by decide) (by decide),
   sortByPrecedence_contract_amended.2.2.2.1 _ _ _ (by decide) (by decide)⟩

end LHTreemap
